import Mathlib

/-!
Verification of the QuantumSync signaling-server Room & Session Registry.

The development shallowly embeds the registry of `src/src/server.js`
(`RoomManager` with its `rooms` map and `userSocketMap` identity index,
plus the socket event handlers) and, where claims reference them, the
handlers of the `src/unnamed/part_000` variant (which keeps the
bidirectional `socketToUser` / `userToSocket` index and performs
validation, duplicate and same-room checks).

JavaScript `Map`s are modelled as association lists in insertion order:
`Map.set` replaces the entry of an existing key in place and appends a
fresh key at the end, `Map.delete` removes the key's entries, and
`Map.get` returns the first entry for the key.
-/

set_option maxHeartbeats 1000000

namespace QuantumSync

universe u

/-- `Map.get k`: first value stored under key `k`, if any. -/
def mapFind {α : Type u} (k : String) (l : List (String × α)) : Option α :=
  (l.find? (fun p => p.1 == k)).map Prod.snd

/-- `Map.set k v`: replace the value of an existing key in place, else append. -/
def mapSet {α : Type u} (k : String) (v : α) : List (String × α) → List (String × α)
  | [] => [(k, v)]
  | p :: rest => if p.1 == k then (k, v) :: rest else p :: mapSet k v rest

/-- `Map.delete k`: remove every entry stored under key `k`. -/
def mapErase {α : Type u} (k : String) (l : List (String × α)) : List (String × α) :=
  l.filter (fun p => p.1 != k)

section MapLemmas

variable {α : Type u} {k k' : String} {v : α} {l : List (String × α)}

@[simp] theorem mapFind_nil : mapFind k ([] : List (String × α)) = none := rfl

theorem mapFind_cons {p : String × α} :
    mapFind k (p :: l) = if p.1 == k then some p.2 else mapFind k l := by
  simp only [mapFind, List.find?]
  split <;> simp_all

@[simp] theorem mapFind_mapSet_self : mapFind k (mapSet k v l) = some v := by
  induction l with
  | nil => simp [mapSet, mapFind_cons]
  | cons p rest ih =>
    simp only [mapSet]
    split
    · simp [mapFind_cons]
    · rename_i h
      simp [mapFind_cons, h, ih]

theorem mapFind_mapSet_ne (h : k' ≠ k) : mapFind k' (mapSet k v l) = mapFind k' l := by
  have hk : ¬ ((k : String) == k') = true := by
    simp only [beq_iff_eq]
    exact fun hh => h hh.symm
  induction l with
  | nil => simp [mapSet, mapFind_cons, hk]
  | cons p rest ih =>
    simp only [mapSet]
    split
    · rename_i hp
      have hp' : p.1 = k := by simpa using hp
      rw [mapFind_cons, mapFind_cons, hp']
      simp [hk]
    · rw [mapFind_cons, mapFind_cons, ih]

@[simp] theorem mapFind_mapErase_self : mapFind k (mapErase k l) = none := by
  simp only [mapFind, mapErase, Option.map_eq_none']
  rw [List.find?_eq_none]
  intro p hp
  have := (List.mem_filter.mp hp).2
  simp_all

theorem mapFind_mapErase_ne (h : k' ≠ k) : mapFind k' (mapErase k l) = mapFind k' l := by
  induction l with
  | nil => rfl
  | cons p rest ih =>
    simp only [mapErase, List.filter]
    rcases hpk : (p.1 != k) with _ | _
    · have hp1 : p.1 = k := by simpa using hpk
      have : ¬ (p.1 == k') = true := by
        simp [hp1]; exact fun hh => h hh.symm
      simp only [mapFind_cons]
      rw [if_neg this]
      simpa [mapErase] using ih
    · simp only [mapFind_cons]
      split
      · rfl
      · simpa [mapErase] using ih

theorem mem_of_mem_mapErase {p : String × α} (h : p ∈ mapErase k l) :
    p ∈ l ∧ p.1 ≠ k := by
  have := List.mem_filter.mp h
  simpa using this

theorem mem_mapErase_of_ne {p : String × α} (h : p ∈ l) (hk : p.1 ≠ k) :
    p ∈ mapErase k l := by
  exact List.mem_filter.mpr ⟨h, by simpa using hk⟩

theorem mem_mapSet {p : String × α} (h : p ∈ mapSet k v l) :
    p = (k, v) ∨ p ∈ l := by
  induction l with
  | nil => simpa [mapSet] using h
  | cons q rest ih =>
    simp only [mapSet] at h
    split at h
    · rcases List.mem_cons.mp h with h | h
      · exact Or.inl h
      · exact Or.inr (List.mem_cons_of_mem _ h)
    · rcases List.mem_cons.mp h with h | h
      · exact Or.inr (h ▸ List.mem_cons_self _ _)
      · rcases ih h with h | h
        · exact Or.inl h
        · exact Or.inr (List.mem_cons_of_mem _ h)

theorem self_mem_mapSet : (k, v) ∈ mapSet k v l := by
  induction l with
  | nil => simp [mapSet]
  | cons q rest ih =>
    simp only [mapSet]
    split
    · exact List.mem_cons_self _ _
    · exact List.mem_cons_of_mem _ ih

theorem mem_mapSet_of_ne {p : String × α} (h : p ∈ l) (hk : p.1 ≠ k) :
    p ∈ mapSet k v l := by
  induction l with
  | nil => cases h
  | cons q rest ih =>
    simp only [mapSet]
    rcases List.mem_cons.mp h with h | h
    · subst h
      rw [if_neg (by simpa using hk)]
      exact List.mem_cons_self _ _
    · split
      · exact List.mem_cons_of_mem _ h
      · exact List.mem_cons_of_mem _ (ih h)

theorem mapSet_ne_nil : mapSet k v l ≠ [] := by
  cases l with
  | nil => simp [mapSet]
  | cons q rest => simp only [mapSet]; split <;> simp

theorem mapFind_isSome_of_mem {p : String × α} (h : p ∈ l) :
    (mapFind p.1 l).isSome := by
  induction l with
  | nil => cases h
  | cons q rest ih =>
    rcases List.mem_cons.mp h with h | h
    · subst h; simp [mapFind_cons]
    · rw [mapFind_cons]
      split
      · simp
      · exact ih h

theorem mem_of_mapFind_eq_some (h : mapFind k l = some v) : (k, v) ∈ l := by
  induction l with
  | nil => simp [mapFind] at h
  | cons q rest ih =>
    rw [mapFind_cons] at h
    split at h
    · rename_i hq
      obtain ⟨q1, q2⟩ := q
      have h1 : q1 = k := by simpa using hq
      have h2 : q2 = v := by simpa using h
      subst h1; subst h2
      exact List.mem_cons_self _ _
    · exact List.mem_cons_of_mem _ (ih h)

/-- Keys of the list after `mapSet` are contained in `k :: keys`. -/
theorem keys_mapSet_subset :
    ((mapSet k v l).map Prod.fst) ⊆ k :: l.map Prod.fst := by
  induction l with
  | nil => simp [mapSet]
  | cons q rest ih =>
    simp only [mapSet]
    split
    · intro x hx
      simp only [List.map_cons, List.mem_cons] at hx ⊢
      tauto
    · intro x hx
      simp only [List.map_cons, List.mem_cons] at hx ⊢
      rcases hx with h | h
      · tauto
      · rcases List.mem_cons.mp (ih h) with h | h <;> tauto

theorem nodupKeys_mapSet (h : (l.map Prod.fst).Nodup) :
    ((mapSet k v l).map Prod.fst).Nodup := by
  induction l with
  | nil => simp [mapSet]
  | cons q rest ih =>
    simp only [mapSet]
    split
    · rename_i hq
      have hq1 : q.1 = k := by simpa using hq
      simpa [hq1] using h
    · rename_i hq
      have hq1 : q.1 ≠ k := by simpa using hq
      simp only [List.map_cons, List.nodup_cons] at h ⊢
      refine ⟨fun hmem => ?_, ih h.2⟩
      rcases List.mem_cons.mp (keys_mapSet_subset hmem) with h1 | h1
      · exact hq1 h1
      · exact h.1 h1

theorem nodupKeys_mapErase (h : (l.map Prod.fst).Nodup) :
    ((mapErase k l).map Prod.fst).Nodup := by
  have hsub : (mapErase k l).map Prod.fst |>.Sublist (l.map Prod.fst) :=
    (List.filter_sublist l).map Prod.fst
  exact h.sublist hsub

/-- With nodup keys, two entries with the same key coincide. -/
theorem nodupKeys_unique {a b : α} (h : (l.map Prod.fst).Nodup)
    (ha : (k, a) ∈ l) (hb : (k, b) ∈ l) : a = b := by
  induction l with
  | nil => cases ha
  | cons q rest ih =>
    simp only [List.map_cons, List.nodup_cons] at h
    have hk1 : ∀ c : α, (k, c) ∈ rest → k ∈ rest.map Prod.fst := by
      intro c hc
      exact List.mem_map.mpr ⟨(k, c), hc, rfl⟩
    rcases List.mem_cons.mp ha with ha1 | ha1 <;> rcases List.mem_cons.mp hb with hb1 | hb1
    · rw [← ha1] at hb1
      simpa using hb1.symm
    · exfalso
      rw [← ha1] at h
      exact h.1 (hk1 b hb1)
    · exfalso
      rw [← hb1] at h
      exact h.1 (hk1 a ha1)
    · exact ih h.2 ha1 hb1

theorem mapFind_eq_some_of_mem {a : α} (h : (l.map Prod.fst).Nodup)
    (ha : (k, a) ∈ l) : mapFind k l = some a := by
  have hs := mapFind_isSome_of_mem ha
  rcases ho : mapFind k l with _ | b
  · rw [ho] at hs; cases hs
  · have := mem_of_mapFind_eq_some ho
    exact congrArg some (nodupKeys_unique h this ha)

/-- With nodup keys, a member whose key differs survives `mapSet` unchanged,
and strong membership: every member of `mapSet` is the new entry or an old
member with a different key. -/
theorem mem_mapSet_nodup {p : String × α} (h : (l.map Prod.fst).Nodup)
    (hp : p ∈ mapSet k v l) : p = (k, v) ∨ (p ∈ l ∧ p.1 ≠ k) := by
  induction l with
  | nil => simpa [mapSet] using hp
  | cons q rest ih =>
    simp only [List.map_cons, List.nodup_cons] at h
    simp only [mapSet] at hp
    split at hp
    · rename_i hq
      have hq1 : q.1 = k := by simpa using hq
      rcases List.mem_cons.mp hp with h1 | h1
      · exact Or.inl h1
      · right
        refine ⟨List.mem_cons_of_mem _ h1, fun hpk => ?_⟩
        have : q.1 ∈ rest.map Prod.fst :=
          List.mem_map.mpr ⟨p, h1, by rw [hpk, hq1]⟩
        exact h.1 this
    · rename_i hq
      have hq1 : q.1 ≠ k := by simpa using hq
      rcases List.mem_cons.mp hp with h1 | h1
      · right; exact ⟨h1 ▸ List.mem_cons_self _ _, h1 ▸ hq1⟩
      · rcases ih h.2 h1 with h2 | h2
        · exact Or.inl h2
        · exact Or.inr ⟨List.mem_cons_of_mem _ h2.1, h2.2⟩

theorem mapSet_mapSet {w : α} : mapSet k v (mapSet k w l) = mapSet k v l := by
  induction l with
  | nil => simp [mapSet]
  | cons q rest ih =>
    by_cases hq : (q.1 == k) = true
    · simp [mapSet, hq]
    · have houter : ∀ (x : α) (m : List (String × α)),
          mapSet k x (q :: m) = q :: mapSet k x m := by
        intro x m
        simp only [mapSet]
        rw [if_neg hq]
      rw [houter, houter, houter, ih]

theorem mapErase_mapErase_self : mapErase k (mapErase k l) = mapErase k l := by
  simp only [mapErase, List.filter_filter]
  congr 1
  funext p
  rcases h : (p.1 != k) with _ | _ <;> simp [h]

end MapLemmas

/-! ## The server.js `RoomManager`

Translated from `src/src/server.js`.  A participant record carries the
fields set by `joinRoom`; timestamps (`Date.now()`) are threaded through
as an explicit `now : Nat` argument. -/

/-- Participant record created by `RoomManager.joinRoom`. -/
structure Participant where
  socketId : String
  userId : String
  userName : String
  joinedAt : Nat
  videoEnabled : Bool
  audioEnabled : Bool
  lastSeen : Nat
deriving DecidableEq, Repr

/-- Room record created by `RoomManager.createRoom`. -/
structure Room where
  participants : List (String × Participant)
  createdAt : Nat
  active : Bool
deriving DecidableEq, Repr

/-- State owned by a `RoomManager` instance: the room store and the
`userId -> socketId` identity index (`userSocketMap`). -/
structure ManagerState where
  rooms : List (String × Room)
  userSocketMap : List (String × String)
deriving DecidableEq, Repr

/-- `this.maxRoomSize = parseInt(process.env.MAX_ROOM_SIZE) || 10` with the
default configuration. -/
def maxRoomSize : Nat := 10

/-- `RoomManager.createRoom`: insert an empty room with `createdAt = now`
if the id is not yet present; otherwise leave the store unchanged. -/
def createRoom (rooms : List (String × Room)) (roomId : String) (now : Nat) :
    List (String × Room) :=
  if (mapFind roomId rooms).isSome then rooms
  else mapSet roomId ⟨[], now, true⟩ rooms

/-- Result of `RoomManager.joinRoom`: either the updated state, or the
thrown error message together with the state left behind by the throw. -/
inductive JoinResult where
  | ok (st : ManagerState)
  | err (msg : String) (st : ManagerState)
deriving DecidableEq, Repr

/-- `RoomManager.joinRoom`: ensure the room exists, throw `"Room is full"`
when membership has reached `maxRoomSize`, otherwise set the participant
record (overwriting any previous entry for the same `userId`) and update
`userSocketMap`. -/
def joinRoom (st : ManagerState) (roomId userId socketId userName : String)
    (now : Nat) : JoinResult :=
  let rooms1 := createRoom st.rooms roomId now
  let room := (mapFind roomId rooms1).getD ⟨[], now, true⟩
  if maxRoomSize ≤ room.participants.length then
    JoinResult.err "Room is full" { st with rooms := rooms1 }
  else
    let p : Participant := ⟨socketId, userId, userName, now, true, true, now⟩
    let room' : Room := { room with participants := mapSet userId p room.participants }
    JoinResult.ok { rooms := mapSet roomId room' rooms1,
                    userSocketMap := mapSet userId socketId st.userSocketMap }

/-- `RoomManager.leaveRoom`: if the room exists, delete the participant and
the identity-index entry, and delete the room itself when it is now empty. -/
def leaveRoom (st : ManagerState) (roomId userId : String) : ManagerState :=
  match mapFind roomId st.rooms with
  | none => st
  | some room =>
    let room' : Room := { room with participants := mapErase userId room.participants }
    let rooms' := if room'.participants.length = 0 then mapErase roomId st.rooms
                  else mapSet roomId room' st.rooms
    { rooms := rooms', userSocketMap := mapErase userId st.userSocketMap }

/-- `RoomManager.getSocketId`, the relay-target resolution used by the
`offer` / `answer` / `ice-candidate` handlers of `server.js`: a lookup in
the global `userSocketMap`, with no room scoping. -/
def getSocketId (st : ManagerState) (userId : String) : Option String :=
  mapFind userId st.userSocketMap

/-- The `(roomId, userId)` pairs removed by `handleUserDisconnect`: for each
room, the first participant whose `socketId` matches the disconnected one. -/
def disconnectMatches (st : ManagerState) (socketId : String) :
    List (String × String) :=
  st.rooms.filterMap fun rp =>
    (rp.2.participants.find? fun up => up.2.socketId == socketId).map
      fun up => (rp.1, up.1)

/-- `handleUserDisconnect` of `server.js`: scan all rooms for participants
bound to the disconnected socket and `leaveRoom` each match. -/
def handleUserDisconnect (st : ManagerState) (socketId : String) : ManagerState :=
  (disconnectMatches st socketId).foldl (fun s pr => leaveRoom s pr.1 pr.2) st

/-- Idle timeout used by `RoomManager.cleanup`: 5 minutes in milliseconds. -/
def cleanupTimeout : Nat := 5 * 60 * 1000

/-- The `(roomId, userId)` pairs evicted by `RoomManager.cleanup`: every
participant whose `lastSeen` is staler than the timeout. -/
def stalePairs (st : ManagerState) (now : Nat) : List (String × String) :=
  st.rooms.foldr (fun rp acc =>
    (rp.2.participants.filterMap fun up =>
      if cleanupTimeout < now - up.2.lastSeen then some (rp.1, up.1) else none) ++ acc) []

/-- `RoomManager.cleanup` (the idle-session reaper): `leaveRoom` every
participant whose `lastSeen` exceeded the timeout. -/
def cleanup (st : ManagerState) (now : Nat) : ManagerState :=
  (stalePairs st now).foldl (fun s pr => leaveRoom s pr.1 pr.2) st

/-- Recipients of the `server.js` `send-message` handler: `io.to(roomId)`
delivers to every member of the room, with no check that the sending
identity is a member. -/
def sendMessageRecipients (st : ManagerState) (roomId : String) : List String :=
  match mapFind roomId st.rooms with
  | none => []
  | some room => room.participants.map (fun up => up.2.socketId)

/-! ## Unfolding equations for `joinRoom` and `leaveRoom` -/

section Equations

variable {st : ManagerState} {roomId userId socketId userName : String}
variable {now : Nat} {room : Room}

/-- The participant record written by `joinRoom`. -/
def joinRecord (userId socketId userName : String) (now : Nat) : Participant :=
  ⟨socketId, userId, userName, now, true, true, now⟩

theorem joinRoom_full (h : mapFind roomId st.rooms = some room)
    (hlen : maxRoomSize ≤ room.participants.length) :
    joinRoom st roomId userId socketId userName now = .err "Room is full" st := by
  unfold joinRoom createRoom
  simp [h, hlen]

theorem joinRoom_existing_ok (h : mapFind roomId st.rooms = some room)
    (hlen : room.participants.length < maxRoomSize) :
    joinRoom st roomId userId socketId userName now =
      .ok ⟨mapSet roomId
             { room with participants := mapSet userId (joinRecord userId socketId userName now) room.participants }
             st.rooms,
           mapSet userId socketId st.userSocketMap⟩ := by
  unfold joinRoom createRoom joinRecord
  simp [h, Nat.not_le.mpr hlen]

theorem joinRoom_fresh_ok (h : mapFind roomId st.rooms = none) :
    joinRoom st roomId userId socketId userName now =
      .ok ⟨mapSet roomId
             ⟨[(userId, joinRecord userId socketId userName now)], now, true⟩
             st.rooms,
           mapSet userId socketId st.userSocketMap⟩ := by
  unfold joinRoom createRoom joinRecord
  rw [h]
  simp only [Option.isSome_none, Bool.false_eq_true, if_false, mapFind_mapSet_self,
    Option.getD_some, List.length_nil, Nat.le_zero]
  rw [if_neg (by decide : ¬ (maxRoomSize = 0))]
  simp [mapSet, mapSet_mapSet]

theorem joinRoom_err_inv {msg : String} {st₂ : ManagerState}
    (h : joinRoom st roomId userId socketId userName now = .err msg st₂) :
    msg = "Room is full" ∧ st₂ = st ∧
      ∃ room, mapFind roomId st.rooms = some room ∧
        maxRoomSize ≤ room.participants.length := by
  rcases hfind : mapFind roomId st.rooms with _ | room
  · rw [joinRoom_fresh_ok hfind] at h
    cases h
  · by_cases hlen : maxRoomSize ≤ room.participants.length
    · rw [joinRoom_full hfind hlen] at h
      cases h
      exact ⟨rfl, rfl, room, rfl, hlen⟩
    · rw [joinRoom_existing_ok hfind (Nat.not_le.mp hlen)] at h
      cases h

theorem leaveRoom_eq_none (h : mapFind roomId st.rooms = none) :
    leaveRoom st roomId userId = st := by
  simp [leaveRoom, h]

theorem leaveRoom_eq_del (h : mapFind roomId st.rooms = some room)
    (h0 : (mapErase userId room.participants).length = 0) :
    leaveRoom st roomId userId =
      ⟨mapErase roomId st.rooms, mapErase userId st.userSocketMap⟩ := by
  simp [leaveRoom, h, h0]

theorem leaveRoom_eq_set (h : mapFind roomId st.rooms = some room)
    (h0 : (mapErase userId room.participants).length ≠ 0) :
    leaveRoom st roomId userId =
      ⟨mapSet roomId { room with participants := mapErase userId room.participants } st.rooms,
       mapErase userId st.userSocketMap⟩ := by
  simp [leaveRoom, h, h0]

end Equations

/-! ## Concrete states used as witnesses and counterexamples -/

/-- Participant with fixed timestamps, for concrete registry states. -/
def mkPart (sock uid name : String) : Participant :=
  ⟨sock, uid, name, 0, true, true, 0⟩

/-- A room `r1` filled to the default capacity of 10. -/
def fullParts : List (String × Participant) :=
  [("u0", mkPart "s0" "u0" "n0"), ("u1", mkPart "s1" "u1" "n1"),
   ("u2", mkPart "s2" "u2" "n2"), ("u3", mkPart "s3" "u3" "n3"),
   ("u4", mkPart "s4" "u4" "n4"), ("u5", mkPart "s5" "u5" "n5"),
   ("u6", mkPart "s6" "u6" "n6"), ("u7", mkPart "s7" "u7" "n7"),
   ("u8", mkPart "s8" "u8" "n8"), ("u9", mkPart "s9" "u9" "n9")]

/-- Registry state whose only room `r1` is at capacity. -/
def fullRoomState : ManagerState :=
  ⟨[("r1", ⟨fullParts, 0, true⟩)],
   [("u0", "s0"), ("u1", "s1"), ("u2", "s2"), ("u3", "s3"), ("u4", "s4"),
    ("u5", "s5"), ("u6", "s6"), ("u7", "s7"), ("u8", "s8"), ("u9", "s9")]⟩

/-! ## Claim C3 -/

/-- Claim C3: for every room whose current membership count has reached the
configured capacity (default 10), a join attempt on that room fails with the
room-full error, and the state — in particular the room's participant set and
count — is exactly the same after the failed join as before it. -/
theorem C3_join_at_capacity_fails (st : ManagerState)
    (roomId userId socketId userName : String) (now : Nat) (room : Room)
    (hroom : mapFind roomId st.rooms = some room)
    (hlen : maxRoomSize ≤ room.participants.length) :
    joinRoom st roomId userId socketId userName now = .err "Room is full" st :=
  joinRoom_full hroom hlen

/-- Witness for C3: an 11th identity joining the full room `r1` is rejected
and the registry state is untouched. -/
theorem C3_join_at_capacity_fails_witness :
    joinRoom fullRoomState "r1" "u10" "s10" "n10" 5 =
      .err "Room is full" fullRoomState :=
  C3_join_at_capacity_fails fullRoomState "r1" "u10" "s10" "n10" 5
    ⟨fullParts, 0, true⟩ (by decide) (by decide)

/-! ## Claim C10 -/

/-- Claim C10: in `joinRoom` the capacity check precedes any handling of an
already-present identity, so when a room is at capacity, a join for an
identity that is already a member of that room fails with the room-full
error and leaves the state (including that member's record) unchanged,
rather than being treated as a rejoin or record update. -/
theorem C10_capacity_check_precedes_rejoin (st : ManagerState)
    (roomId userId socketId userName : String) (now : Nat)
    (room : Room) (p : Participant)
    (hroom : mapFind roomId st.rooms = some room)
    (_hmem : mapFind userId room.participants = some p)
    (hlen : maxRoomSize ≤ room.participants.length) :
    joinRoom st roomId userId socketId userName now = .err "Room is full" st :=
  joinRoom_full hroom hlen

/-- Witness for C10: `u3` is already a member of the full room `r1`, yet a
second join for `u3` is rejected with the room-full error and the state is
unchanged. -/
theorem C10_capacity_check_precedes_rejoin_witness :
    joinRoom fullRoomState "r1" "u3" "s3x" "n3" 5 =
      .err "Room is full" fullRoomState :=
  C10_capacity_check_precedes_rejoin fullRoomState "r1" "u3" "s3x" "n3" 5
    ⟨fullParts, 0, true⟩ (mkPart "s3" "u3" "n3") (by decide) (by decide) (by decide)

/-! ## Claim C5 -/

/-- State used to refute the no-op half of claim C5: `u` is a member of
room `R1` only, while room `R2` is inhabited by `v`. -/
def twoRoomState : ManagerState :=
  ⟨[("R1", ⟨[("u", mkPart "s1" "u" "nu")], 0, true⟩),
    ("R2", ⟨[("v", mkPart "s2" "v" "nv")], 0, true⟩)],
   [("u", "s1"), ("v", "s2")]⟩

/-- Counterexample to claim C5 as stated: `u` is not a member of room `R2`,
yet `leaveRoom R2 u` is not a no-op — it deletes `u`'s identity-index entry
(the `userSocketMap` entry) even though `u` is still a member of `R1`. -/
theorem C5_counterexample :
    mapFind "u" ((mapFind "R2" twoRoomState.rooms).getD ⟨[], 0, true⟩).participants
        = none ∧
    leaveRoom twoRoomState "R2" "u" ≠ twoRoomState ∧
    (leaveRoom twoRoomState "R2" "u").userSocketMap = [("v", "s2")] := by
  refine ⟨by decide, ?_, by decide⟩
  decide

/-- Claim C5, amended: `leaveRoom` is idempotent — performing it twice in a
row yields the same final state as performing it once, and the second call
is not an error (the operation is total and never throws).  However, when
the identity is not a member of the named room, `leaveRoom` is only
guaranteed to be a complete no-op when the named room does not exist; when
the room exists, the identity's `userSocketMap` index entry is removed even
though the identity is not a member of that room. -/
theorem C5_leave_idempotent (st : ManagerState) (roomId userId : String) :
    leaveRoom (leaveRoom st roomId userId) roomId userId = leaveRoom st roomId userId ∧
    ((mapFind roomId st.rooms).isNone → leaveRoom st roomId userId = st) := by
  constructor
  · rcases hfind : mapFind roomId st.rooms with _ | room
    · have h1 : leaveRoom st roomId userId = st := leaveRoom_eq_none hfind
      rw [h1]
      exact h1
    · by_cases h0 : (mapErase userId room.participants).length = 0
      · have h1 := leaveRoom_eq_del hfind h0
        rw [h1]
        exact leaveRoom_eq_none (mapFind_mapErase_self)
      · have h1 := leaveRoom_eq_set hfind h0
        rw [h1]
        have h2 : mapFind roomId
            (mapSet roomId { room with participants := mapErase userId room.participants }
              st.rooms) =
            some { room with participants := mapErase userId room.participants } :=
          mapFind_mapSet_self
        have h3 : mapErase userId
            ({ room with participants := mapErase userId room.participants } : Room).participants
            = mapErase userId room.participants := mapErase_mapErase_self
        rw [leaveRoom_eq_set h2 (by simpa [h3] using h0)]
        simp only [h3]
        rw [mapSet_mapSet, mapErase_mapErase_self]
  · intro hnone
    exact leaveRoom_eq_none (Option.isNone_iff_eq_none.mp hnone)

/-- Witness for C5 (amended): a concrete double `leaveRoom`, and a concrete
no-op `leaveRoom` on an absent room. -/
theorem C5_leave_idempotent_witness :
    leaveRoom (leaveRoom twoRoomState "R1" "u") "R1" "u" = leaveRoom twoRoomState "R1" "u" ∧
    leaveRoom twoRoomState "R9" "u" = twoRoomState :=
  ⟨(C5_leave_idempotent twoRoomState "R1" "u").1,
   (C5_leave_idempotent twoRoomState "R9" "u").2 (by decide)⟩

/-! ## Claim C6: empty rooms never persist -/

/-- No room present in the Room Store has an empty participant set. -/
def NoEmptyRooms (st : ManagerState) : Prop :=
  ∀ rp ∈ st.rooms, rp.2.participants ≠ []

instance (st : ManagerState) : Decidable (NoEmptyRooms st) := by
  unfold NoEmptyRooms
  infer_instance

theorem noEmptyRooms_leaveRoom {st : ManagerState} {roomId userId : String}
    (h : NoEmptyRooms st) : NoEmptyRooms (leaveRoom st roomId userId) := by
  rcases hfind : mapFind roomId st.rooms with _ | room
  · rw [leaveRoom_eq_none hfind]
    exact h
  · by_cases h0 : (mapErase userId room.participants).length = 0
    · rw [leaveRoom_eq_del hfind h0]
      intro rp hrp
      exact h rp (mem_of_mem_mapErase hrp).1
    · rw [leaveRoom_eq_set hfind h0]
      intro rp hrp
      rcases mem_mapSet hrp with h1 | h1
      · subst h1
        simpa [← List.length_pos_iff_ne_nil] using Nat.pos_of_ne_zero h0
      · exact h rp h1

theorem noEmptyRooms_foldLeave {pairs : List (String × String)} :
    ∀ {st : ManagerState}, NoEmptyRooms st →
      NoEmptyRooms (pairs.foldl (fun s pr => leaveRoom s pr.1 pr.2) st) := by
  induction pairs with
  | nil => intro st h; exact h
  | cons pr rest ih =>
    intro st h
    exact ih (noEmptyRooms_leaveRoom h)

/-- Claim C6: after any operation (join — successful or failed —, leave,
abrupt disconnect, or a reaper sweep), no room with zero participants exists
in the Room Store: the room record is deleted in the same operation that
removes its last participant; and a join on a roomId that is currently
absent creates a fresh room whose `createdAt` is the join's own timestamp
and whose participant set contains exactly the joiner. -/
theorem C6_empty_rooms_removed :
    (∀ (st : ManagerState) (roomId userId socketId userName : String)
       (now : Nat) (st₂ : ManagerState),
       joinRoom st roomId userId socketId userName now = .ok st₂ →
       NoEmptyRooms st → NoEmptyRooms st₂) ∧
    (∀ (st : ManagerState) (roomId userId socketId userName msg : String)
       (now : Nat) (st₂ : ManagerState),
       joinRoom st roomId userId socketId userName now = .err msg st₂ →
       NoEmptyRooms st → NoEmptyRooms st₂) ∧
    (∀ (st : ManagerState) (roomId userId : String),
       NoEmptyRooms st → NoEmptyRooms (leaveRoom st roomId userId)) ∧
    (∀ (st : ManagerState) (socketId : String),
       NoEmptyRooms st → NoEmptyRooms (handleUserDisconnect st socketId)) ∧
    (∀ (st : ManagerState) (now : Nat),
       NoEmptyRooms st → NoEmptyRooms (cleanup st now)) ∧
    (∀ (st : ManagerState) (roomId userId socketId userName : String)
       (now : Nat) (st₂ : ManagerState),
       mapFind roomId st.rooms = none →
       joinRoom st roomId userId socketId userName now = .ok st₂ →
       mapFind roomId st₂.rooms =
         some ⟨[(userId, joinRecord userId socketId userName now)], now, true⟩) := by
  refine ⟨?_, ?_, ?_, ?_, ?_, ?_⟩
  · intro st roomId userId socketId userName now st₂ hok h
    rcases hfind : mapFind roomId st.rooms with _ | room
    · rw [joinRoom_fresh_ok hfind] at hok
      cases hok
      intro rp hrp
      rcases mem_mapSet hrp with h1 | h1
      · subst h1; simp
      · exact h rp h1
    · by_cases hlen : maxRoomSize ≤ room.participants.length
      · rw [joinRoom_full hfind hlen] at hok
        cases hok
      · rw [joinRoom_existing_ok hfind (Nat.not_le.mp hlen)] at hok
        cases hok
        intro rp hrp
        rcases mem_mapSet hrp with h1 | h1
        · subst h1
          exact mapSet_ne_nil
        · exact h rp h1
  · intro st roomId userId socketId userName msg now st₂ herr h
    rcases joinRoom_err_inv herr with ⟨_, hst, _⟩
    rw [hst]
    exact h
  · intro st roomId userId h
    exact noEmptyRooms_leaveRoom h
  · intro st socketId h
    exact noEmptyRooms_foldLeave h
  · intro st now h
    exact noEmptyRooms_foldLeave h
  · intro st roomId userId socketId userName now st₂ hnone hok
    rw [joinRoom_fresh_ok hnone] at hok
    cases hok
    exact mapFind_mapSet_self

/-- Registry state after `w` joins the previously absent room `R3` of
`twoRoomState` at time 7. -/
def joinedFreshState : ManagerState :=
  ⟨[("R1", ⟨[("u", mkPart "s1" "u" "nu")], 0, true⟩),
    ("R2", ⟨[("v", mkPart "s2" "v" "nv")], 0, true⟩),
    ("R3", ⟨[("w", ⟨"s3", "w", "nw", 7, true, true, 7⟩)], 7, true⟩)],
   [("u", "s1"), ("v", "s2"), ("w", "s3")]⟩

/-- Witness for C6: concrete instances of each conjunct on small states —
joining a fresh room, leaving, disconnecting and sweeping the two-room
state, and the fresh `createdAt` of the newly created room `R3`. -/
theorem C6_empty_rooms_removed_witness :
    NoEmptyRooms joinedFreshState ∧
    NoEmptyRooms (leaveRoom twoRoomState "R1" "u") ∧
    NoEmptyRooms (handleUserDisconnect twoRoomState "s1") ∧
    NoEmptyRooms (cleanup twoRoomState 1000000) ∧
    mapFind "R3" joinedFreshState.rooms =
      some ⟨[("w", joinRecord "w" "s3" "nw" 7)], 7, true⟩ := by
  refine ⟨?_, ?_, ?_, ?_, ?_⟩
  · exact C6_empty_rooms_removed.1 twoRoomState "R3" "w" "s3" "nw" 7
      joinedFreshState (by decide) (by decide)
  · exact C6_empty_rooms_removed.2.2.1 twoRoomState "R1" "u" (by decide)
  · exact C6_empty_rooms_removed.2.2.2.1 twoRoomState "s1" (by decide)
  · exact C6_empty_rooms_removed.2.2.2.2.1 twoRoomState 1000000 (by decide)
  · exact C6_empty_rooms_removed.2.2.2.2.2 twoRoomState "R3" "w" "s3" "nw" 7
      joinedFreshState (by decide) (by decide)

/-! ## Claim C7: disconnect is equivalent to leave -/

theorem filterMap_eq_single {β γ : Type} {l : List (String × β)}
    {g : String × β → Option γ} {r : String} {y : γ}
    (hnd : (l.map Prod.fst).Nodup) (hmem : ∃ x, (r, x) ∈ l)
    (hg : ∀ rp ∈ l, g rp = if rp.1 = r then some y else none) :
    l.filterMap g = [y] := by
  induction l with
  | nil => rcases hmem with ⟨x, hx⟩; cases hx
  | cons q rest ih =>
    simp only [List.map_cons, List.nodup_cons] at hnd
    by_cases hq : q.1 = r
    · have hgq : g q = some y := by rw [hg q (List.mem_cons_self _ _), if_pos hq]
      rw [List.filterMap_cons, hgq]
      have hrest : rest.filterMap g = [] := by
        rw [List.filterMap_eq_nil_iff]
        intro rp hrp
        have hne : rp.1 ≠ r := by
          intro hcontra
          apply hnd.1
          rw [hq]
          rw [← hcontra]
          exact List.mem_map.mpr ⟨rp, hrp, rfl⟩
        rw [hg rp (List.mem_cons_of_mem _ hrp), if_neg hne]
      rw [hrest]
    · have hgq : g q = none := by rw [hg q (List.mem_cons_self _ _), if_neg hq]
      rw [List.filterMap_cons, hgq]
      rcases hmem with ⟨x, hx⟩
      rcases List.mem_cons.mp hx with h1 | h1
      · exact absurd (congrArg Prod.fst h1.symm) hq
      · exact ih hnd.2 ⟨x, h1⟩ (fun rp hrp => hg rp (List.mem_cons_of_mem _ hrp))

theorem find?_mapSet_socket {parts : List (String × Participant)}
    {userId sock : String} {p : Participant}
    (hall : ∀ q ∈ parts, q.2.socketId ≠ sock) (hp : p.socketId = sock) :
    (mapSet userId p parts).find? (fun q => q.2.socketId == sock) = some (userId, p) := by
  induction parts with
  | nil =>
    simp only [mapSet]
    exact List.find?_cons_of_pos _ (by simpa using hp)
  | cons q rest ih =>
    simp only [mapSet]
    split
    · exact List.find?_cons_of_pos _ (by simpa using hp)
    · rw [List.find?_cons_of_neg _ (by simpa using hall q (List.mem_cons_self _ _))]
      exact ih (fun q' hq' => hall q' (List.mem_cons_of_mem _ hq'))

theorem disconnectMatches_after_set {rooms : List (String × Room)}
    {m : List (String × String)} {roomId userId sock : String}
    {room2 : Room} {p : Participant} {parts₀ : List (String × Participant)}
    (hwf : (rooms.map Prod.fst).Nodup)
    (hfresh : ∀ rp ∈ rooms, ∀ up ∈ rp.2.participants, up.2.socketId ≠ sock)
    (hparts : room2.participants = mapSet userId p parts₀)
    (hparts₀ : ∀ q ∈ parts₀, q.2.socketId ≠ sock)
    (hpsock : p.socketId = sock) :
    disconnectMatches ⟨mapSet roomId room2 rooms, m⟩ sock = [(roomId, userId)] := by
  unfold disconnectMatches
  apply filterMap_eq_single (nodupKeys_mapSet hwf) ⟨room2, self_mem_mapSet⟩
  intro rp hrp
  rcases mem_mapSet_nodup hwf hrp with h1 | h1
  · subst h1
    rw [if_pos rfl]
    simp only [hparts]
    rw [find?_mapSet_socket hparts₀ hpsock]
    rfl
  · rw [if_neg h1.2]
    rw [Option.map_eq_none']
    rw [List.find?_eq_none]
    intro up hup
    simpa using hfresh rp h1.1 up hup

/-- Claim C7: for a session that has just completed a successful join (its
socket id not having been bound to any participant before the join),
processing an abrupt transport disconnect for that session leaves the
registry in exactly the same state as an explicit `leaveRoom` for that
participant: disconnect and leave are observationally equivalent cleanup
paths. -/
theorem C7_disconnect_equals_leave (st : ManagerState)
    (roomId userId sock userName : String) (now : Nat) (st₂ : ManagerState)
    (hwf : (st.rooms.map Prod.fst).Nodup)
    (hfresh : ∀ rp ∈ st.rooms, ∀ up ∈ rp.2.participants, up.2.socketId ≠ sock)
    (hok : joinRoom st roomId userId sock userName now = .ok st₂) :
    handleUserDisconnect st₂ sock = leaveRoom st₂ roomId userId := by
  have key : disconnectMatches st₂ sock = [(roomId, userId)] := by
    rcases hfind : mapFind roomId st.rooms with _ | room
    · rw [joinRoom_fresh_ok hfind] at hok
      cases hok
      exact @disconnectMatches_after_set st.rooms _ roomId userId sock _
        (joinRecord userId sock userName now) [] hwf hfresh rfl
        (by intro q hq; cases hq) rfl
    · by_cases hlen : maxRoomSize ≤ room.participants.length
      · rw [joinRoom_full hfind hlen] at hok
        cases hok
      · rw [joinRoom_existing_ok hfind (Nat.not_le.mp hlen)] at hok
        cases hok
        exact @disconnectMatches_after_set st.rooms _ roomId userId sock _
          (joinRecord userId sock userName now) room.participants hwf hfresh rfl
          (hfresh _ (mem_of_mapFind_eq_some hfind)) rfl
  unfold handleUserDisconnect
  rw [key]
  rfl

/-- Registry state after the fresh session `s9` joins room `R1` of
`twoRoomState` as identity `w` at time 3. -/
def joinedC7State : ManagerState :=
  ⟨[("R1", ⟨[("u", mkPart "s1" "u" "nu"), ("w", ⟨"s9", "w", "nw", 3, true, true, 3⟩)],
      0, true⟩),
    ("R2", ⟨[("v", mkPart "s2" "v" "nv")], 0, true⟩)],
   [("u", "s1"), ("v", "s2"), ("w", "s9")]⟩

/-- Witness for C7: in the concrete two-room state, a fresh session `s9`
joins room `R1` as identity `w`; disconnecting `s9` then equals an explicit
leave of `w` from `R1`. -/
theorem C7_disconnect_equals_leave_witness :
    handleUserDisconnect joinedC7State "s9" = leaveRoom joinedC7State "R1" "w" :=
  C7_disconnect_equals_leave twoRoomState "R1" "w" "s9" "nw" 3 joinedC7State
    (by decide) (by decide) (by decide)

/-! ## The `part_000` variant

Translated from `src/unnamed/part_000`: this variant keeps the plain
`rooms : Map(roomId -> Map(userId -> userData))` store together with the
bidirectional index `socketToUser` / `userToSocket`, validates join input,
rejects duplicate identities, resolves relay targets within the sender's
own room, and drops chat messages from non-members. -/

/-- User record stored in a `part_000` room (`userData` in `join-room`). -/
structure P0User where
  socketId : String
  userId : String
  userName : String
  joinedAt : Nat
deriving DecidableEq, Repr

/-- Reverse-index record: `socketToUser.set(socket.id, {userId, roomId, userName})`. -/
structure P0SockInfo where
  userId : String
  roomId : String
  userName : String
deriving DecidableEq, Repr

/-- Global state of the `part_000` server: room store plus both directions
of the identity index. -/
structure P0State where
  rooms : List (String × List (String × P0User))
  socketToUser : List (String × P0SockInfo)
  userToSocket : List (String × String)
deriving DecidableEq, Repr

/-- An outbound message of the `part_000` `join-room` handler: either an
emit to the requesting socket only, or a broadcast to the other members of
a room. -/
inductive Emit where
  | toSender (event : String)
  | toRoomOthers (roomId event : String)
deriving DecidableEq, Repr

/-- The `part_000` `join-room` handler: validate the three fields, create
the room when absent, reject when the room is full or the identity is
already a member, otherwise store the user record and both index
directions.  Returns the new state together with the emitted events. -/
def p0joinRoom (st : P0State) (senderSocket roomId userId userName : String)
    (now : Nat) : P0State × List Emit :=
  if roomId == "" || userId == "" || userName == "" then
    (st, [Emit.toSender "room-error"])
  else
    let rooms1 := if (mapFind roomId st.rooms).isSome then st.rooms
                  else mapSet roomId [] st.rooms
    let room := (mapFind roomId rooms1).getD []
    if 10 ≤ room.length then
      ({ st with rooms := rooms1 }, [Emit.toSender "room-error"])
    else if (mapFind userId room).isSome then
      ({ st with rooms := rooms1 }, [Emit.toSender "room-error"])
    else
      ({ rooms := mapSet roomId (mapSet userId ⟨senderSocket, userId, userName, now⟩ room) rooms1,
         socketToUser := mapSet senderSocket ⟨userId, roomId, userName⟩ st.socketToUser,
         userToSocket := mapSet userId senderSocket st.userToSocket },
       [Emit.toSender "room-joined", Emit.toRoomOthers roomId "user-joined"])

/-- The `part_000` relay handlers (`offer`, `answer`, `ice-candidate` are
structurally identical): validate the payload, reverse-look-up the sender's
room through `socketToUser`, and resolve the target identity inside that
same room only.  Returns the socket the payload is delivered to, or `none`
when the message is dropped. -/
def p0relayTarget (st : P0State) (senderSocket payload target sender : String) :
    Option String :=
  if payload == "" || target == "" || sender == "" then none
  else
    match mapFind senderSocket st.socketToUser with
    | none => none
    | some sd =>
      match mapFind sd.roomId st.rooms with
      | none => none
      | some room => (mapFind target room).map (fun u => u.socketId)

/-- The `part_000` `send-message` handler: deliver to every member socket of
the room (`io.to(roomId)`), but only when the claimed sender identity is a
member of that room; otherwise drop. -/
def p0sendMessage (st : P0State) (roomId userId : String) : List String :=
  match mapFind roomId st.rooms with
  | none => []
  | some room =>
    if (mapFind userId room).isSome then room.map (fun up => up.2.socketId)
    else []

/-- Concrete `part_000` state with rooms `A = {x, y}` and `B = {z}` and a
consistent bidirectional index. -/
def p0TwoRooms : P0State :=
  ⟨[("A", [("x", ⟨"sx", "x", "nx", 0⟩), ("y", ⟨"sy", "y", "ny", 0⟩)]),
    ("B", [("z", ⟨"sz", "z", "nz", 0⟩)])],
   [("sx", ⟨"x", "A", "nx"⟩), ("sy", ⟨"y", "A", "ny"⟩), ("sz", ⟨"z", "B", "nz"⟩)],
   [("x", "sx"), ("y", "sy"), ("z", "sz")]⟩

/-! ## Claim C1 -/

/-- Concrete `server.js` registry state with rooms `A = {x, y}` and
`B = {z}` and the corresponding global `userSocketMap`. -/
def crossRoomState : ManagerState :=
  ⟨[("A", ⟨[("x", mkPart "sx" "x" "nx"), ("y", mkPart "sy" "y" "ny")], 0, true⟩),
    ("B", ⟨[("z", mkPart "sz" "z" "nz")], 0, true⟩)],
   [("x", "sx"), ("y", "sy"), ("z", "sz")]⟩

/-- Counterexample to claim C1 as stated: in the `server.js` relay, sender
`x` is a member of room `A`, target `z` is a member of the different room
`B` and not of `A`, yet `getSocketId` — the target resolution used by the
`offer`, `answer` and `ice-candidate` handlers — resolves `z` through the
global `userSocketMap` and the handler delivers the payload to `z`'s
session `sz`. -/
theorem C1_counterexample :
    mapFind "x" ((mapFind "A" crossRoomState.rooms).getD ⟨[], 0, true⟩).participants
        = some (mkPart "sx" "x" "nx") ∧
    mapFind "z" ((mapFind "A" crossRoomState.rooms).getD ⟨[], 0, true⟩).participants = none ∧
    mapFind "z" ((mapFind "B" crossRoomState.rooms).getD ⟨[], 0, true⟩).participants
        = some (mkPart "sz" "z" "nz") ∧
    (mkPart "sz" "z" "nz").socketId = "sz" ∧
    getSocketId crossRoomState "z" = some "sz" := by
  refine ⟨by decide, by decide, by decide, by decide, by decide⟩

/-- Claim C1, amended: in the `part_000` variant the relay resolves the
target only within the sender's own room, so a relay message whose target
identity is not a member of the sender's room is dropped (delivered to no
session at all), regardless of whether the target exists in another room.
In the `server.js` variant, however, the relay resolves the target through
the global `userSocketMap`, so a message targeting an identity registered
in a different room is delivered to that identity's session. -/
theorem C1_relay_scoped_to_sender_room (st : P0State)
    (senderSocket payload target sender : String) (sd : P0SockInfo)
    (room : List (String × P0User))
    (hsd : mapFind senderSocket st.socketToUser = some sd)
    (hroom : mapFind sd.roomId st.rooms = some room)
    (htarget : mapFind target room = none) :
    p0relayTarget st senderSocket payload target sender = none := by
  unfold p0relayTarget
  split
  · rfl
  · simp [hsd, hroom, htarget]

/-- Witness for C1 (amended): `x` (session `sx`, room `A`) sends an offer
targeting `z`, who is a member of room `B` only; the `part_000` relay
delivers it to no session. -/
theorem C1_relay_scoped_to_sender_room_witness :
    p0relayTarget p0TwoRooms "sx" "sdp-offer" "z" "x" = none :=
  C1_relay_scoped_to_sender_room p0TwoRooms "sx" "sdp-offer" "z" "x"
    ⟨"x", "A", "nx"⟩ [("x", ⟨"sx", "x", "nx", 0⟩), ("y", ⟨"sy", "y", "ny", 0⟩)]
    (by decide) (by decide) (by decide)

/-! ## Claim C4 -/

/-- `server.js` state after the overwriting second join of `u` into `R1`
with session `s1b` and display name `nu2` at time 5. -/
def overwrittenState : ManagerState :=
  ⟨[("R1", ⟨[("u", ⟨"s1b", "u", "nu2", 5, true, true, 5⟩)], 0, true⟩),
    ("R2", ⟨[("v", mkPart "s2" "v" "nv")], 0, true⟩)],
   [("u", "s1b"), ("v", "s2")]⟩

/-- Counterexample to claim C4 as stated: in `server.js`, `u` is already a
member of room `R1`, yet a second join for `u` (without an intervening
leave) does not fail — it succeeds and silently overwrites the prior
participant record and index entry. -/
theorem C4_counterexample :
    mapFind "u" ((mapFind "R1" twoRoomState.rooms).getD ⟨[], 0, true⟩).participants
        = some (mkPart "s1" "u" "nu") ∧
    joinRoom twoRoomState "R1" "u" "s1b" "nu2" 5 = .ok overwrittenState ∧
    overwrittenState ≠ twoRoomState := by
  refine ⟨by decide, by decide, by decide⟩

/-- Claim C4, amended: in the `part_000` variant a second join for an
identity that is already a member of the room (with valid fields and the
room below capacity, so that the earlier checks do not fire first) fails
with the duplicate-identity room error, reported to the requester only, and
leaves the whole state — the existing participant record and both index
directions — unchanged.  In the `server.js` variant the second join instead
silently overwrites the prior entry. -/
theorem C4_duplicate_join_rejected (st : P0State)
    (senderSocket roomId userId userName : String) (now : Nat)
    (room : List (String × P0User)) (u0 : P0User)
    (hr : roomId ≠ "") (hu : userId ≠ "") (hn : userName ≠ "")
    (hroom : mapFind roomId st.rooms = some room)
    (hlen : room.length < 10)
    (hmem : mapFind userId room = some u0) :
    p0joinRoom st senderSocket roomId userId userName now =
      (st, [Emit.toSender "room-error"]) := by
  unfold p0joinRoom
  simp [hr, hu, hn, hroom, Nat.not_le.mpr hlen, hmem]

/-- Witness for C4 (amended): a second join of `x` into room `A` of the
concrete `part_000` state is rejected with a room error and changes
nothing. -/
theorem C4_duplicate_join_rejected_witness :
    p0joinRoom p0TwoRooms "sx2" "A" "x" "nx" 9 =
      (p0TwoRooms, [Emit.toSender "room-error"]) :=
  C4_duplicate_join_rejected p0TwoRooms "sx2" "A" "x" "nx" 9
    [("x", ⟨"sx", "x", "nx", 0⟩), ("y", ⟨"sy", "y", "ny", 0⟩)] ⟨"sx", "x", "nx", 0⟩
    (by decide) (by decide) (by decide) (by decide) (by decide) (by decide)

/-! ## Claim C8 -/

/-- Counterexample to claim C8 as stated: the `server.js` `join-room`
handler performs no input validation — a join in which every field is the
empty string does not fail with a validation error; it succeeds and mutates
the registry, creating a room keyed by the empty string. -/
theorem C8_counterexample :
    joinRoom ⟨[], []⟩ "" "" "s1" "" 0 =
      .ok ⟨[("", ⟨[("", ⟨"s1", "", "", 0, true, true, 0⟩)], 0, true⟩)], [("", "s1")]⟩ ∧
    ([("", ⟨[("", ⟨"s1", "", "", 0, true, true, 0⟩)], 0, true⟩)] :
        List (String × Room)) ≠ [] := by
  exact ⟨by decide, by decide⟩

/-- Claim C8, amended: in the `part_000` variant, a join request in which
`roomId`, `userId` or `userName` is empty fails with the validation room
error, is emitted to the originating socket only, and performs no mutation
of any room or index state.  The `server.js` variant performs no such
validation: the join succeeds and mutates the room store. -/
theorem C8_join_validation (st : P0State)
    (senderSocket roomId userId userName : String) (now : Nat)
    (h : roomId = "" ∨ userId = "" ∨ userName = "") :
    p0joinRoom st senderSocket roomId userId userName now =
      (st, [Emit.toSender "room-error"]) := by
  unfold p0joinRoom
  rcases h with h | h | h <;> simp [h]

/-- Witness for C8 (amended): a join with an empty `userId` against the
concrete two-room `part_000` state is rejected with only a room error to
the caller and no state change. -/
theorem C8_join_validation_witness :
    p0joinRoom p0TwoRooms "sw" "A" "" "nw" 4 =
      (p0TwoRooms, [Emit.toSender "room-error"]) :=
  C8_join_validation p0TwoRooms "sw" "A" "" "nw" 4 (Or.inr (Or.inl rfl))

/-! ## Claim C9 -/

/-- Counterexample to claim C9 as stated: the `server.js` `send-message`
handler performs no membership check — `u` is not a member of room `R2`,
yet a send-message naming `R2` and sender `u` is broadcast to the room:
member `v`'s session `s2` receives it. -/
theorem C9_counterexample :
    mapFind "u" ((mapFind "R2" twoRoomState.rooms).getD ⟨[], 0, true⟩).participants = none ∧
    sendMessageRecipients twoRoomState "R2" = ["s2"] := by
  exact ⟨by decide, by decide⟩

/-- Claim C9, amended: in the `part_000` variant, a send-message naming a
room and a sender identity that is not present in that room's participant
set (or naming a room that does not exist) is dropped: it is delivered to
no session.  The `server.js` variant broadcasts to the room members with no
membership check on the sender. -/
theorem C9_nonmember_message_dropped :
    (∀ (st : P0State) (roomId userId : String) (room : List (String × P0User)),
       mapFind roomId st.rooms = some room →
       mapFind userId room = none →
       p0sendMessage st roomId userId = []) ∧
    (∀ (st : P0State) (roomId userId : String),
       mapFind roomId st.rooms = none →
       p0sendMessage st roomId userId = []) := by
  constructor
  · intro st roomId userId room hroom hmem
    unfold p0sendMessage
    simp [hroom, hmem]
  · intro st roomId userId hroom
    unfold p0sendMessage
    simp [hroom]

/-- Witness for C9 (amended): `x` is not a member of room `B` of the
concrete `part_000` state, so a send-message naming `B` and sender `x`
reaches no session; a message to the non-existent room `C` likewise. -/
theorem C9_nonmember_message_dropped_witness :
    p0sendMessage p0TwoRooms "B" "x" = [] ∧ p0sendMessage p0TwoRooms "C" "x" = [] :=
  ⟨C9_nonmember_message_dropped.1 p0TwoRooms "B" "x" [("z", ⟨"sz", "z", "nz", 0⟩)]
     (by decide) (by decide),
   C9_nonmember_message_dropped.2 p0TwoRooms "C" "x" (by decide)⟩

/-! ## Claim C2: Room Store / Identity Index consistency -/

/-- Well-formedness of the association-list representation: room keys,
participant keys within each room, and identity-index keys are unique, as
they are for JavaScript `Map`s. -/
def WFkeys (st : ManagerState) : Prop :=
  (st.rooms.map Prod.fst).Nodup ∧
  (∀ rp ∈ st.rooms, (rp.2.participants.map Prod.fst).Nodup) ∧
  (st.userSocketMap.map Prod.fst).Nodup

/-- Each identity is a member of at most one room. -/
def SingleMembership (st : ManagerState) : Prop :=
  ∀ rp ∈ st.rooms, ∀ up ∈ rp.2.participants,
    ∀ rp2 ∈ st.rooms, rp2.1 ≠ rp.1 → mapFind up.1 rp2.2.participants = none

/-- Consistency of the identity index with the Room Store: every
participant present in some room has an index entry bound to its current
session, and every index entry corresponds to a participant in some room. -/
def IndexConsistent (st : ManagerState) : Prop :=
  (∀ rp ∈ st.rooms, ∀ up ∈ rp.2.participants,
     mapFind up.1 st.userSocketMap = some up.2.socketId) ∧
  (∀ us ∈ st.userSocketMap, ∃ rp ∈ st.rooms, ∃ up ∈ rp.2.participants,
     up.1 = us.1 ∧ up.2.socketId = us.2)

/-- The registry invariant of §3 of the spec. -/
def RegistryInv (st : ManagerState) : Prop :=
  WFkeys st ∧ SingleMembership st ∧ IndexConsistent st

/-- The identity is not a member of any room other than (possibly) the
named one. -/
def NotElsewhere (st : ManagerState) (roomId userId : String) : Prop :=
  ∀ rp ∈ st.rooms, rp.1 ≠ roomId → mapFind userId rp.2.participants = none

instance (st : ManagerState) : Decidable (WFkeys st) := by
  unfold WFkeys
  infer_instance

instance (st : ManagerState) : Decidable (SingleMembership st) := by
  unfold SingleMembership
  infer_instance

instance (st : ManagerState) : Decidable (IndexConsistent st) := by
  unfold IndexConsistent
  infer_instance

instance (st : ManagerState) : Decidable (RegistryInv st) := by
  unfold RegistryInv
  infer_instance

instance (st : ManagerState) (roomId userId : String) :
    Decidable (NotElsewhere st roomId userId) := by
  unfold NotElsewhere
  infer_instance

theorem registryInv_leaveRoom {st : ManagerState} {roomId userId : String}
    (hinv : RegistryInv st) (hne : NotElsewhere st roomId userId) :
    RegistryInv (leaveRoom st roomId userId) := by
  obtain ⟨⟨hndR, hndP, hndM⟩, hsm, hic1, hic2⟩ := hinv
  rcases hfind : mapFind roomId st.rooms with _ | room
  · rw [leaveRoom_eq_none hfind]
    exact ⟨⟨hndR, hndP, hndM⟩, hsm, hic1, hic2⟩
  · have hroomMem : (roomId, room) ∈ st.rooms := mem_of_mapFind_eq_some hfind
    by_cases h0 : (mapErase userId room.participants).length = 0
    · rw [leaveRoom_eq_del hfind h0]
      refine ⟨⟨nodupKeys_mapErase hndR, ?_, nodupKeys_mapErase hndM⟩, ?_, ?_, ?_⟩
      · intro rp hrp
        exact hndP rp (mem_of_mem_mapErase hrp).1
      · intro rp hrp up hup rp2 hrp2 hne2
        exact hsm rp (mem_of_mem_mapErase hrp).1 up hup
          rp2 (mem_of_mem_mapErase hrp2).1 hne2
      · intro rp hrp up hup
        have h1 := mem_of_mem_mapErase hrp
        have hupne : up.1 ≠ userId := by
          intro hcontra
          have h2 := mapFind_isSome_of_mem hup
          rw [hcontra, hne rp h1.1 h1.2] at h2
          simp at h2
        rw [mapFind_mapErase_ne hupne]
        exact hic1 rp h1.1 up hup
      · intro us hus
        have h1 := mem_of_mem_mapErase hus
        obtain ⟨rp, hrp, up, hup, hkey, hsock⟩ := hic2 us h1.1
        by_cases hrpid : rp.1 = roomId
        · exfalso
          have hmem2 : (roomId, rp.2) ∈ st.rooms := by
            rw [← hrpid]
            exact hrp
          have hrm : rp.2 = room := nodupKeys_unique hndR hmem2 hroomMem
          have hupne : up.1 ≠ userId := by rw [hkey]; exact h1.2
          have hup' : up ∈ mapErase userId room.participants :=
            mem_mapErase_of_ne (hrm ▸ hup) hupne
          rw [List.length_eq_zero] at h0
          rw [h0] at hup'
          cases hup'
        · exact ⟨rp, mem_mapErase_of_ne hrp hrpid, up, hup, hkey, hsock⟩
    · rw [leaveRoom_eq_set hfind h0]
      refine ⟨⟨nodupKeys_mapSet hndR, ?_, nodupKeys_mapErase hndM⟩, ?_, ?_, ?_⟩
      · intro rp hrp
        rcases mem_mapSet_nodup hndR hrp with h1 | h1
        · subst h1
          exact nodupKeys_mapErase (hndP _ hroomMem)
        · exact hndP rp h1.1
      · intro rp hrp up hup rp2 hrp2 hne2
        rcases mem_mapSet_nodup hndR hrp with h1 | h1 <;>
          rcases mem_mapSet_nodup hndR hrp2 with h2 | h2
        · subst h1; subst h2
          exact absurd rfl hne2
        · subst h1
          have hup' := mem_of_mem_mapErase hup
          exact hsm (roomId, room) hroomMem up hup'.1 rp2 h2.1 (by simpa using hne2)
        · subst h2
          have hbase : mapFind up.1 room.participants = none :=
            hsm rp h1.1 up hup (roomId, room) hroomMem (by simpa using hne2)
          show mapFind up.1 (mapErase userId room.participants) = none
          by_cases hux : up.1 = userId
          · rw [hux]
            exact mapFind_mapErase_self
          · rw [mapFind_mapErase_ne hux]
            exact hbase
        · exact hsm rp h1.1 up hup rp2 h2.1 hne2
      · intro rp hrp up hup
        rcases mem_mapSet_nodup hndR hrp with h1 | h1
        · subst h1
          have hup' := mem_of_mem_mapErase hup
          rw [mapFind_mapErase_ne hup'.2]
          exact hic1 (roomId, room) hroomMem up hup'.1
        · have hupne : up.1 ≠ userId := by
            intro hcontra
            have h2 := mapFind_isSome_of_mem hup
            rw [hcontra, hne rp h1.1 h1.2] at h2
            simp at h2
          rw [mapFind_mapErase_ne hupne]
          exact hic1 rp h1.1 up hup
      · intro us hus
        have h1 := mem_of_mem_mapErase hus
        obtain ⟨rp, hrp, up, hup, hkey, hsock⟩ := hic2 us h1.1
        by_cases hrpid : rp.1 = roomId
        · have hmem2 : (roomId, rp.2) ∈ st.rooms := by
            rw [← hrpid]
            exact hrp
          have hrm : rp.2 = room := nodupKeys_unique hndR hmem2 hroomMem
          have hupne : up.1 ≠ userId := by rw [hkey]; exact h1.2
          exact ⟨(roomId, { room with participants := mapErase userId room.participants }),
            self_mem_mapSet, up, mem_mapErase_of_ne (hrm ▸ hup) hupne, hkey, hsock⟩
        · exact ⟨rp, mem_mapSet_of_ne hrp hrpid, up, hup, hkey, hsock⟩

theorem notElsewhere_leaveRoom {st : ManagerState} {r₀ u₀ r u : String}
    (h : NotElsewhere st r u) : NotElsewhere (leaveRoom st r₀ u₀) r u := by
  rcases hfind : mapFind r₀ st.rooms with _ | room
  · rw [leaveRoom_eq_none hfind]
    exact h
  · by_cases h0 : (mapErase u₀ room.participants).length = 0
    · rw [leaveRoom_eq_del hfind h0]
      intro rp hrp hne2
      exact h rp (mem_of_mem_mapErase hrp).1 hne2
    · rw [leaveRoom_eq_set hfind h0]
      intro rp hrp hne2
      rcases mem_mapSet hrp with h1 | h1
      · subst h1
        have hbase : mapFind u room.participants = none :=
          h (r₀, room) (mem_of_mapFind_eq_some hfind) hne2
        show mapFind u (mapErase u₀ room.participants) = none
        by_cases hux : u = u₀
        · rw [hux]
          exact mapFind_mapErase_self
        · rw [mapFind_mapErase_ne hux]
          exact hbase
      · exact h rp h1 hne2

theorem registryInv_foldLeave :
    ∀ (pairs : List (String × String)) (st : ManagerState),
      RegistryInv st → (∀ pr ∈ pairs, NotElsewhere st pr.1 pr.2) →
      RegistryInv (pairs.foldl (fun s pr => leaveRoom s pr.1 pr.2) st) := by
  intro pairs
  induction pairs with
  | nil =>
    intro st h _
    exact h
  | cons pr rest ih =>
    intro st hinv hall
    simp only [List.foldl_cons]
    apply ih
    · exact registryInv_leaveRoom hinv (hall pr (List.mem_cons_self _ _))
    · intro pr2 hpr2
      exact notElsewhere_leaveRoom (hall pr2 (List.mem_cons_of_mem _ hpr2))

theorem registryInv_disconnect {st : ManagerState} {sock : String}
    (hinv : RegistryInv st) : RegistryInv (handleUserDisconnect st sock) := by
  apply registryInv_foldLeave _ _ hinv
  intro pr hpr
  unfold disconnectMatches at hpr
  rcases List.mem_filterMap.mp hpr with ⟨rp, hrp, hf⟩
  rcases Option.map_eq_some'.mp hf with ⟨up, hfind, heq⟩
  have hup := List.mem_of_find?_eq_some hfind
  subst heq
  intro rp2 hrp2 hne2
  exact hinv.2.1 rp hrp up hup rp2 hrp2 hne2

theorem mem_foldr_append {β γ : Type} {g : β → List γ} {l : List β} {x : γ} :
    x ∈ l.foldr (fun a acc => g a ++ acc) [] ↔ ∃ a ∈ l, x ∈ g a := by
  induction l with
  | nil => simp
  | cons b rest ih =>
    simp only [List.foldr_cons, List.mem_append, ih, List.mem_cons]
    constructor
    · rintro (h | ⟨a, ha, hx⟩)
      · exact ⟨b, Or.inl rfl, h⟩
      · exact ⟨a, Or.inr ha, hx⟩
    · rintro ⟨a, ha | ha, hx⟩
      · subst ha
        exact Or.inl hx
      · exact Or.inr ⟨a, ha, hx⟩

theorem registryInv_cleanup {st : ManagerState} {now : Nat}
    (hinv : RegistryInv st) : RegistryInv (cleanup st now) := by
  apply registryInv_foldLeave _ _ hinv
  intro pr hpr
  unfold stalePairs at hpr
  rcases mem_foldr_append.mp hpr with ⟨rp, hrp, hin⟩
  rcases List.mem_filterMap.mp hin with ⟨up, hup, hsome⟩
  split at hsome
  · cases hsome
    intro rp2 hrp2 hne2
    exact hinv.2.1 rp hrp up hup rp2 hrp2 hne2
  · cases hsome

theorem registryInv_join_aux {st : ManagerState}
    {roomId userId socketId userName : String} {now : Nat}
    {parts₀ : List (String × Participant)} {c₀ : Nat} {a₀ : Bool}
    (hndR : (st.rooms.map Prod.fst).Nodup)
    (hndP : ∀ rp ∈ st.rooms, (rp.2.participants.map Prod.fst).Nodup)
    (hndM : (st.userSocketMap.map Prod.fst).Nodup)
    (hsm : SingleMembership st)
    (hic1 : ∀ rp ∈ st.rooms, ∀ up ∈ rp.2.participants,
       mapFind up.1 st.userSocketMap = some up.2.socketId)
    (hic2 : ∀ us ∈ st.userSocketMap, ∃ rp ∈ st.rooms, ∃ up ∈ rp.2.participants,
       up.1 = us.1 ∧ up.2.socketId = us.2)
    (hne : NotElsewhere st roomId userId)
    (hnd₀ : (parts₀.map Prod.fst).Nodup)
    (hparts₀ : ∀ rp ∈ st.rooms, rp.1 = roomId → rp.2.participants = parts₀)
    (hold : ∀ up ∈ parts₀, mapFind up.1 st.userSocketMap = some up.2.socketId)
    (hsm₀ : ∀ up ∈ parts₀, ∀ rp2 ∈ st.rooms, rp2.1 ≠ roomId →
       mapFind up.1 rp2.2.participants = none)
    (hsm₀' : ∀ rp ∈ st.rooms, rp.1 ≠ roomId → ∀ up ∈ rp.2.participants,
       mapFind up.1 parts₀ = none) :
    RegistryInv
      ⟨mapSet roomId
         ⟨mapSet userId (joinRecord userId socketId userName now) parts₀, c₀, a₀⟩
         st.rooms,
       mapSet userId socketId st.userSocketMap⟩ := by
  refine ⟨⟨nodupKeys_mapSet hndR, ?_, nodupKeys_mapSet hndM⟩, ?_, ?_, ?_⟩
  · intro rp hrp
    rcases mem_mapSet_nodup hndR hrp with h1 | h1
    · subst h1
      exact nodupKeys_mapSet hnd₀
    · exact hndP rp h1.1
  · intro rp hrp up hup rp2 hrp2 hne2
    rcases mem_mapSet_nodup hndR hrp with h1 | h1 <;>
      rcases mem_mapSet_nodup hndR hrp2 with h2 | h2
    · subst h1; subst h2
      exact absurd rfl hne2
    · subst h1
      rcases mem_mapSet_nodup hnd₀ hup with h3 | h3
      · subst h3
        exact hne rp2 h2.1 h2.2
      · exact hsm₀ up h3.1 rp2 h2.1 h2.2
    · subst h2
      have hupne : up.1 ≠ userId := by
        intro hcontra
        have h3 := mapFind_isSome_of_mem hup
        rw [hcontra, hne rp h1.1 h1.2] at h3
        simp at h3
      show mapFind up.1
        (mapSet userId (joinRecord userId socketId userName now) parts₀) = none
      rw [mapFind_mapSet_ne hupne]
      exact hsm₀' rp h1.1 h1.2 up hup
    · exact hsm rp h1.1 up hup rp2 h2.1 hne2
  · intro rp hrp up hup
    rcases mem_mapSet_nodup hndR hrp with h1 | h1
    · subst h1
      rcases mem_mapSet_nodup hnd₀ hup with h3 | h3
      · subst h3
        rw [mapFind_mapSet_self]
        rfl
      · rw [mapFind_mapSet_ne h3.2]
        exact hold up h3.1
    · have hupne : up.1 ≠ userId := by
        intro hcontra
        have h3 := mapFind_isSome_of_mem hup
        rw [hcontra, hne rp h1.1 h1.2] at h3
        simp at h3
      rw [mapFind_mapSet_ne hupne]
      exact hic1 rp h1.1 up hup
  · intro us hus
    rcases mem_mapSet_nodup hndM hus with h1 | h1
    · subst h1
      exact ⟨(roomId, ⟨mapSet userId (joinRecord userId socketId userName now) parts₀, c₀, a₀⟩),
        self_mem_mapSet, (userId, joinRecord userId socketId userName now),
        self_mem_mapSet, rfl, rfl⟩
    · obtain ⟨rp, hrp, up, hup, hkey, hsock⟩ := hic2 us h1.1
      by_cases hrpid : rp.1 = roomId
      · have hparts := hparts₀ rp hrp hrpid
        have hupne : up.1 ≠ userId := by rw [hkey]; exact h1.2
        exact ⟨(roomId, ⟨mapSet userId (joinRecord userId socketId userName now) parts₀, c₀, a₀⟩),
          self_mem_mapSet, up, mem_mapSet_of_ne (hparts ▸ hup) hupne, hkey, hsock⟩
      · exact ⟨rp, mem_mapSet_of_ne hrp hrpid, up, hup, hkey, hsock⟩

theorem registryInv_joinRoom {st st₂ : ManagerState}
    {roomId userId socketId userName : String} {now : Nat}
    (hinv : RegistryInv st) (hne : NotElsewhere st roomId userId)
    (hok : joinRoom st roomId userId socketId userName now = .ok st₂) :
    RegistryInv st₂ := by
  obtain ⟨⟨hndR, hndP, hndM⟩, hsm, hic1, hic2⟩ := hinv
  rcases hfind : mapFind roomId st.rooms with _ | room
  · rw [joinRoom_fresh_ok hfind] at hok
    cases hok
    refine @registryInv_join_aux st roomId userId socketId userName now [] now true
      hndR hndP hndM hsm hic1 hic2 hne (by simp) ?_ ?_ ?_ ?_
    · intro rp hrp hrpid
      exfalso
      have h3 := mapFind_isSome_of_mem hrp
      rw [hrpid, hfind] at h3
      simp at h3
    · intro up hup
      cases hup
    · intro up hup
      cases hup
    · intro rp _ _ up _
      rfl
  · by_cases hlen : maxRoomSize ≤ room.participants.length
    · rw [joinRoom_full hfind hlen] at hok
      cases hok
    · rw [joinRoom_existing_ok hfind (Nat.not_le.mp hlen)] at hok
      cases hok
      have hroomMem : (roomId, room) ∈ st.rooms := mem_of_mapFind_eq_some hfind
      refine @registryInv_join_aux st roomId userId socketId userName now
        room.participants room.createdAt room.active
        hndR hndP hndM hsm hic1 hic2 hne (hndP _ hroomMem) ?_ ?_ ?_ ?_
      · intro rp hrp hrpid
        have hmem2 : (roomId, rp.2) ∈ st.rooms := by
          rw [← hrpid]
          exact hrp
        have hrm : rp.2 = room := nodupKeys_unique hndR hmem2 hroomMem
        rw [hrm]
      · intro up hup
        exact hic1 (roomId, room) hroomMem up hup
      · intro up hup rp2 hrp2 hne'
        exact hsm (roomId, room) hroomMem up hup rp2 hrp2 hne'
      · intro rp hrp hne' up hup
        exact hsm rp hrp up hup (roomId, room) hroomMem (Ne.symm hne')

/-- Counterexample to claim C2 as stated: the consistent two-room state
(`u` in `R1`, `v` in `R2`, index `{u -> s1, v -> s2}`) satisfies the
registry invariant, but a `leaveRoom R2 u` — a leave naming a room the
identity is not a member of — deletes `u`'s index entry while `u` is still
a participant of `R1`, breaking the index/Room-Store consistency.  So the
invariant is not preserved by every registry operation. -/
theorem C2_counterexample :
    RegistryInv twoRoomState ∧
    mapFind "u" ((mapFind "R1" twoRoomState.rooms).getD ⟨[], 0, true⟩).participants
        = some (mkPart "s1" "u" "nu") ∧
    mapFind "u" (leaveRoom twoRoomState "R2" "u").userSocketMap = none ∧
    ¬ RegistryInv (leaveRoom twoRoomState "R2" "u") := by
  refine ⟨by decide, by decide, by decide, by decide⟩

/-- Claim C2, amended: the index/Room-Store consistency invariant (every
participant present in some room has exactly one index entry bound to its
current session, no identity absent from all rooms has an index entry, and
removal updates both structures in the same operation) is preserved by
`joinRoom` provided the identity is not currently a member of a different
room, by `leaveRoom` provided the identity is not a member of a room other
than the named one, and unconditionally by disconnect handling and by the
cleanup reaper.  It is not preserved by a `leaveRoom` that names an
existing room the identity is not a member of: such a leave still deletes
the identity's index entry. -/
theorem C2_index_consistency :
    (∀ (st st₂ : ManagerState) (roomId userId socketId userName : String) (now : Nat),
       RegistryInv st → NotElsewhere st roomId userId →
       joinRoom st roomId userId socketId userName now = .ok st₂ →
       RegistryInv st₂) ∧
    (∀ (st : ManagerState) (roomId userId : String),
       RegistryInv st → NotElsewhere st roomId userId →
       RegistryInv (leaveRoom st roomId userId)) ∧
    (∀ (st : ManagerState) (sock : String),
       RegistryInv st → RegistryInv (handleUserDisconnect st sock)) ∧
    (∀ (st : ManagerState) (now : Nat),
       RegistryInv st → RegistryInv (cleanup st now)) :=
  ⟨fun _ _ _ _ _ _ _ hinv hne hok => registryInv_joinRoom hinv hne hok,
   fun _ _ _ hinv hne => registryInv_leaveRoom hinv hne,
   fun _ _ hinv => registryInv_disconnect hinv,
   fun _ _ hinv => registryInv_cleanup hinv⟩

/-- Witness for C2 (amended): each conjunct applied to the concrete
two-room state — a join into the fresh room `R3`, a leave of `u` from its
own room `R1`, a disconnect of session `s1`, and a reaper sweep. -/
theorem C2_index_consistency_witness :
    RegistryInv joinedFreshState ∧
    RegistryInv (leaveRoom twoRoomState "R1" "u") ∧
    RegistryInv (handleUserDisconnect twoRoomState "s1") ∧
    RegistryInv (cleanup twoRoomState 1000000) :=
  ⟨C2_index_consistency.1 twoRoomState joinedFreshState "R3" "w" "s3" "nw" 7
     (by decide) (by decide) (by decide),
   C2_index_consistency.2.1 twoRoomState "R1" "u" (by decide) (by decide),
   C2_index_consistency.2.2.1 twoRoomState "s1" (by decide),
   C2_index_consistency.2.2.2 twoRoomState 1000000 (by decide)⟩

end QuantumSync
